import Mathlib

/-!
Shallow embedding of `densenet/utils.py` (DenseNet-PyTorch repository):
configuration helpers (`densenet_params`, `densenet`, `get_model_params`),
training utilities (`adjust_learning_rate`, `accuracy`, `AverageMeter`) and
the checkpoint key-rewrite of `load_pretrained_weights`.

Python numeric values are modelled exactly: `int` as `ℤ`, `float` as `ℚ`
(the values the spec talks about — 0.1, 0.5, 100.0 — are exact), a Python
exception as the `error` branch of `Except` / `none` of `Option`.
-/

deriving instance DecidableEq for Except

namespace DN

/-- Python's `str.startswith`, modelled on the underlying character lists. -/
def pyStartsWith (s pre : String) : Bool :=
  pre.data.isPrefixOf s.data

/-- A Python value stored in a `GlobalParams` field or passed as an override:
`None`, an int, a float (modelled as a rational) or a bool. -/
inductive PyVal where
  | pnone : PyVal
  | pint : ℤ → PyVal
  | prat : ℚ → PyVal
  | pbool : Bool → PyVal
  deriving DecidableEq, Repr

/-- The `GlobalParams` namedtuple: parameters for the entire model
(stem, all blocks, and head).  Every field defaults to `None` in the source;
here each field simply holds a `PyVal`. -/
structure GlobalParams where
  growth_rate : PyVal
  num_init_features : PyVal
  bn_size : PyVal
  drop_rate : PyVal
  memory_efficient : PyVal
  num_classes : PyVal
  image_size : PyVal
  deriving DecidableEq, Repr

/-- The error raised by `get_model_params`: a `KeyError` from a dict lookup,
the `NotImplementedError` for names not starting with `densenet`, or the
`ValueError` raised by `_replace` on an unknown override key. -/
inductive GMPErr where
  | keyError : GMPErr
  | notImplementedError : GMPErr
  | valueError : GMPErr
  deriving DecidableEq, Repr

/-- `densenet_params`: map densenet model name to parameter coefficients
(growth_rate, num_init_features, res).  A missing key is a `KeyError`,
modelled by `none`. -/
def densenet_params (model_name : String) : Option (ℤ × ℤ × ℤ) :=
  if model_name = "densenet121" then some (32, 64, 224)
  else if model_name = "densenet161" then some (48, 96, 224)
  else if model_name = "densenet169" then some (32, 64, 224)
  else if model_name = "densenet201" then some (32, 64, 224)
  else none

/-- `densenet`: creates a densenet model description — the per-stage block
layer counts from `blocks_dict` and the assembled `GlobalParams` record.
The Python defaults (`bn_size=4, drop_rate=0, num_classes=1000,
memory_efficient=False`) are passed explicitly by callers. -/
def densenet (model_name : String) (growth_rate num_init_features image_size : ℤ)
    (bn_size : ℤ) (drop_rate : PyVal) (num_classes : ℤ) (memory_efficient : Bool) :
    Option ((ℤ × ℤ × ℤ × ℤ) × GlobalParams) :=
  let blocks_args :=
    if model_name = "densenet121" then some ((6 : ℤ), (12 : ℤ), (24 : ℤ), (16 : ℤ))
    else if model_name = "densenet161" then some (6, 12, 36, 24)
    else if model_name = "densenet169" then some (6, 12, 36, 32)
    else if model_name = "densenet201" then some (6, 12, 48, 32)
    else none
  match blocks_args with
  | none => none
  | some ba =>
      some (ba,
        { growth_rate := .pint growth_rate
          num_init_features := .pint num_init_features
          image_size := .pint image_size
          bn_size := .pint bn_size
          drop_rate := drop_rate
          num_classes := .pint num_classes
          memory_efficient := .pbool memory_efficient })

/-- One step of `GlobalParams._replace(**override_params)`: replace the named
field, or fail (`ValueError`) when the key is not one of the seven declared
fields. -/
def replaceOne (gp : GlobalParams) (kv : String × PyVal) : Option GlobalParams :=
  if kv.1 = "growth_rate" then some { gp with growth_rate := kv.2 }
  else if kv.1 = "num_init_features" then some { gp with num_init_features := kv.2 }
  else if kv.1 = "bn_size" then some { gp with bn_size := kv.2 }
  else if kv.1 = "drop_rate" then some { gp with drop_rate := kv.2 }
  else if kv.1 = "memory_efficient" then some { gp with memory_efficient := kv.2 }
  else if kv.1 = "num_classes" then some { gp with num_classes := kv.2 }
  else if kv.1 = "image_size" then some { gp with image_size := kv.2 }
  else none

/-- `GlobalParams._replace(**override_params)` over the whole override
mapping (a Python dict, modelled as an association list). -/
def applyOverrides (gp : GlobalParams) : List (String × PyVal) → Option GlobalParams
  | [] => some gp
  | kv :: rest =>
      match replaceOne gp kv with
      | none => none
      | some gp' => applyOverrides gp' rest

/-- Turn the 4-tuple `blocks_args` into a list, as `list(blocks_args)` does. -/
def tupToList (t : ℤ × ℤ × ℤ × ℤ) : List ℤ :=
  [t.1, t.2.1, t.2.2.1, t.2.2.2]

/-- `get_model_params`: get the block args and global params for a given
model.  Mirrors the source: names not starting with `densenet` raise
`NotImplementedError`; a `densenet`-prefixed name missing from the
coefficient table raises `KeyError` inside `densenet_params`; a non-empty
override mapping is applied with `_replace`, raising `ValueError` on an
unknown key. -/
def get_model_params (model_name : String) (override_params : List (String × PyVal)) :
    Except GMPErr (List ℤ × GlobalParams) :=
  if pyStartsWith model_name "densenet" then
    match densenet_params model_name with
    | none => .error .keyError
    | some (g, n, s) =>
        match densenet model_name g n s 4 (.pint 0) 1000 false with
        | none => .error .keyError
        | some (blocks_args, global_params) =>
            if override_params.isEmpty then
              .ok (tupToList blocks_args, global_params)
            else
              match applyOverrides global_params override_params with
              | none => .error .valueError
              | some gp => .ok (tupToList blocks_args, gp)
  else .error .notImplementedError

/-- The four supported model names. -/
def validNames : List String :=
  ["densenet121", "densenet161", "densenet169", "densenet201"]

/-- The seven declared `GlobalParams` field names. -/
def gpFields : List String :=
  ["growth_rate", "num_init_features", "bn_size", "drop_rate",
   "memory_efficient", "num_classes", "image_size"]

/-- The slice of the `args` object that `adjust_learning_rate` reads:
its base learning rate `lr`. -/
structure Args where
  lr : ℚ
  deriving DecidableEq, Repr

/-- `adjust_learning_rate`: sets the learning rate to the initial LR decayed
by 10 every 30 epochs.  A parameter group is its `lr` entry paired with the
rest of the group (left untouched by the assignment `param_group['lr'] = lr`).
Returns the updated `optimizer.param_groups`. -/
def adjust_learning_rate {α : Type} (param_groups : List (ℚ × α)) (epoch : ℕ)
    (args : Args) : List (ℚ × α) :=
  let lr := args.lr * (1/10 : ℚ) ^ (epoch / 30)
  param_groups.map (fun param_group => (lr, param_group.2))

/-- The `AverageMeter` object: computes and stores the average and current
value.  `val` and `sum` hold Python numbers (here: exact rationals), `count`
a Python int. -/
structure AverageMeter where
  val : ℚ
  avg : ℚ
  sum : ℚ
  count : ℤ
  deriving DecidableEq, Repr

/-- `AverageMeter.reset`: reinitializes every field to 0 (the state is
independent of the previous one). -/
def AverageMeter.reset (_m : AverageMeter) : AverageMeter :=
  { val := 0, avg := 0, sum := 0, count := 0 }

/-- `AverageMeter.__init__`: construction just calls `reset`. -/
def AverageMeter.init : AverageMeter :=
  AverageMeter.reset { val := 0, avg := 0, sum := 0, count := 0 }

/-- `AverageMeter.update(val, n)`: stores the current value, accumulates the
weighted sum and the count, and recomputes the average as `sum / count`. -/
def AverageMeter.update (m : AverageMeter) (val : ℚ) (n : ℤ) : AverageMeter :=
  let sum := m.sum + val * n
  let count := m.count + n
  { val := val, sum := sum, count := count, avg := sum / count }

/-- A sequence of `update` calls folded over a meter. -/
def AverageMeter.updates (m : AverageMeter) (us : List (ℚ × ℤ)) : AverageMeter :=
  us.foldl (fun acc u => acc.update u.1 u.2) m

/-- The error raised inside `accuracy`: the RuntimeError of `torch.topk`
when `k` exceeds the row width, the ValueError of `max(())`, or the
ZeroDivisionError of `100.0 / batch_size`. -/
inductive AccErr where
  | topkRange : AccErr
  | emptyTopk : AccErr
  | zeroDiv : AccErr
  deriving DecidableEq, Repr

/-- Order in which `torch.topk(..., largest=True, sorted=True)` lists the
indices of one score row: descending score, ties by ascending index (the
underlying sort is stable). -/
def topkRel (row : List ℚ) (i j : ℕ) : Prop :=
  row.getD j 0 < row.getD i 0 ∨ (row.getD i 0 = row.getD j 0 ∧ i ≤ j)

instance (row : List ℚ) : DecidableRel (topkRel row) := fun i j => by
  unfold topkRel
  infer_instance

instance (row : List ℚ) : IsTotal ℕ (topkRel row) where
  total i j := by
    rcases lt_trichotomy (row.getD i 0) (row.getD j 0) with h | h | h
    · exact Or.inr (Or.inl h)
    · rcases Nat.le_total i j with hij | hij
      · exact Or.inl (Or.inr ⟨h, hij⟩)
      · exact Or.inr (Or.inr ⟨h.symm, hij⟩)
    · exact Or.inl (Or.inl h)

instance (row : List ℚ) : IsTrans ℕ (topkRel row) where
  trans i j k hij hjk := by
    rcases hij with hij | ⟨hij, hij'⟩ <;> rcases hjk with hjk | ⟨hjk, hjk'⟩
    · exact Or.inl (hjk.trans hij)
    · exact Or.inl (hjk ▸ hij)
    · exact Or.inl (hjk.trans_eq hij.symm)
    · exact Or.inr ⟨hij.trans hjk, hij'.trans hjk'⟩

/-- All row indices, sorted the way `torch.topk` lists them. -/
def sortedIdx (row : List ℚ) : List ℕ :=
  List.insertionSort (topkRel row) (List.range row.length)

/-- Indices of the `k` largest entries of one row —
`torch.topk(k, largest=True, sorted=True).indices`; a RuntimeError when `k`
exceeds the row width. -/
def topkIdx (k : ℕ) (row : List ℚ) : Except AccErr (List ℕ) :=
  if k ≤ row.length then .ok ((sortedIdx row).take k) else .error .topkRange

/-- The index `torch.topk` lists first for a row: the code's top-1 predicted
class. -/
def top1 (row : List ℚ) : ℕ :=
  (sortedIdx row).headD 0

/-- Column `j` of a matrix stored as a list of rows. -/
def tCol (m : List (List ℕ)) (j : ℕ) : List ℕ :=
  m.filterMap (fun r => r[j]?)

/-- `pred.t()`: transpose of a rectangular `batch × cols` index matrix. -/
def tMat (m : List (List ℕ)) (cols : ℕ) : List (List ℕ) :=
  (List.range cols).map (fun j => tCol m j)

/-- Effectful `List.map` over `Except`, short-circuiting on the first
raised error. -/
def mapExcept {ε α β : Type} (f : α → Except ε β) : List α → Except ε (List β)
  | [] => .ok []
  | a :: as =>
      match f a with
      | .error e => .error e
      | .ok b =>
          match mapExcept f as with
          | .error e => .error e
          | .ok bs => .ok (b :: bs)

/-- `accuracy(output, target, topk)`: precision@k for each requested `k`.
Mirrors the source: `maxk = max(topk)`; `pred` is the per-row `topk` index
matrix; `correct = pred.t().eq(target.view(1, -1).expand_as(...))`;
`correct_k` sums the first `k` rows of `correct` as floats; each result is
`correct_k * (100.0 / batch_size)`, whose division raises on a zero batch. -/
def accuracy (output : List (List ℚ)) (target : List ℕ) (topk : List ℕ) :
    Except AccErr (List ℚ) :=
  if topk.isEmpty then .error .emptyTopk
  else
    let maxk := topk.foldl max 0
    let batch_size := target.length
    match mapExcept (fun row => topkIdx maxk row) output with
    | .error e => .error e
    | .ok pred =>
        let predT := tMat pred maxk
        let correct := predT.map (fun prow => (prow.zip target).map (fun pt => pt.1 == pt.2))
        mapExcept (fun k =>
          let correct_k : ℚ :=
            (((correct.take k).flatten).map (fun b => if b then (1 : ℚ) else 0)).sum
          if batch_size = 0 then .error .zeroDiv
          else .ok (correct_k * (100 / (batch_size : ℚ)))) topk

/-- `\d` of the key-rewrite pattern (checkpoint keys are ASCII). -/
def isDig (c : Char) : Bool :=
  c.isDigit

/-- Drop an expected literal run from the front of a character list, or fail. -/
def dropPre : List Char → List Char → Option (List Char)
  | [], cs => some cs
  | _ :: _, [] => none
  | p :: ps, c :: cs => if c = p then dropPre ps cs else none

/-- Try each literal alternative in turn (the regex alternation
`(?:...|...)`), returning the one that matches and the remainder. -/
def takeAny (cands : List (List Char)) (cs : List Char) : Option (List Char × List Char) :=
  match cands with
  | [] => none
  | p :: ps =>
      match dropPre p cs with
      | some rest => some (p, rest)
      | none => takeAny ps cs

/-- The suffix alternatives `(?:weight|bias|running_mean|running_var)`,
reversed (the key is parsed from its end, where the pattern is anchored). -/
def sufCands : List (List Char) :=
  ["weight".data.reverse, "bias".data.reverse,
   "running_mean".data.reverse, "running_var".data.reverse]

/-- The digit alternatives `(?:[12])`. -/
def digCands : List (List Char) :=
  [['1'], ['2']]

/-- The layer-part alternatives `(?:norm|relu|conv)`, reversed. -/
def midCands : List (List Char) :=
  ["norm".data.reverse, "relu".data.reverse, "conv".data.reverse]

/-- The literal `denselayer`, reversed. -/
def layerRev : List Char :=
  "denselayer".data.reverse

/-- Remaining requirement on the reversed text before the
`(?:norm|relu|conv)` token: a `.` preceded by one or more digits preceded by
`denselayer`, preceded by anything (`^.*denselayer\d+\.` read backwards). -/
def checkStem (r : List Char) : Bool :=
  match dropPre ['.'] r with
  | none => false
  | some r6 =>
      let ds := r6.takeWhile isDig
      let r7 := r6.dropWhile isDig
      !ds.isEmpty && (dropPre layerRev r7).isSome

/-- Matcher for the key-rewrite pattern
`^(.*denselayer\d+\.(?:norm|relu|conv))\.((?:[12])\.(?:weight|bias|running_mean|running_var))$`
on a reversed key.  Since the pattern is anchored at both ends and the
alternatives at each position are determined by the actual characters, group
boundaries are unique; on success it returns the reversed
`group(1) + group(2)` — the original key with the `.` between the layer part
and the digit removed. -/
def rewriteRev (rcs : List Char) : Option (List Char) :=
  match takeAny sufCands rcs with
  | none => none
  | some (suf, r1) =>
      match dropPre ['.'] r1 with
      | none => none
      | some r2 =>
          match takeAny digCands r2 with
          | none => none
          | some (d, r3) =>
              match dropPre ['.'] r3 with
              | none => none
              | some r4 =>
                  match takeAny midCands r4 with
                  | none => none
                  | some (_, r5) =>
                      if checkStem r5 then some (suf ++ '.' :: (d ++ r4)) else none

/-- The per-key rewrite step of `load_pretrained_weights` (`load_fc=True`
branch) on the character list of a key: a key matched by the pattern is
replaced by `group(1) + group(2)`; any other key is left as it is. -/
def rewriteKeyChars (key : List Char) : List Char :=
  match rewriteRev key.reverse with
  | some r => r.reverse
  | none => key

/-- The per-key rewrite step on a checkpoint key. -/
def rewriteKey (key : String) : String :=
  ⟨rewriteKeyChars key.data⟩

/-- `_replace` rejects a key that is not a declared `GlobalParams` field. -/
theorem replaceOne_eq_none {k : String} (hk : k ∉ gpFields) (gp : GlobalParams) (v : PyVal) :
    replaceOne gp (k, v) = none := by
  simp only [gpFields, List.mem_cons, List.not_mem_nil, or_false, not_or] at hk
  obtain ⟨h1, h2, h3, h4, h5, h6, h7⟩ := hk
  simp [replaceOne, h1, h2, h3, h4, h5, h6, h7]

/-- If the override mapping holds any undeclared key, `_replace` fails,
whatever the other entries are. -/
theorem applyOverrides_eq_none {k : String} {v : PyVal} (hk : k ∉ gpFields) :
    ∀ (ovr : List (String × PyVal)) (gp : GlobalParams), (k, v) ∈ ovr →
      applyOverrides gp ovr = none := by
  intro ovr
  induction ovr with
  | nil => intro gp h; simp at h
  | cons kv rest ih =>
    intro gp h
    rcases List.mem_cons.mp h with he | hm
    · rw [← he]
      simp [applyOverrides, replaceOne_eq_none hk]
    · cases hr : replaceOne gp kv with
      | none => simp [applyOverrides, hr]
      | some gp' =>
        simp only [applyOverrides, hr]
        exact ih gp' hm

/-- C1: for every one of the four supported model names, `get_model_params`
with no overrides returns exactly 4 block-layer counts and a configuration
record whose `growth_rate`, `num_init_features` and `image_size` are non-null
and match the coefficient table; in particular `densenet121` gives
growth_rate=32, num_init_features=64, image_size=224 and layers (6,12,24,16). -/
theorem get_model_params_table :
    get_model_params "densenet121" [] =
      .ok ([6, 12, 24, 16],
           ⟨.pint 32, .pint 64, .pint 4, .pint 0, .pbool false, .pint 1000, .pint 224⟩) ∧
    get_model_params "densenet161" [] =
      .ok ([6, 12, 36, 24],
           ⟨.pint 48, .pint 96, .pint 4, .pint 0, .pbool false, .pint 1000, .pint 224⟩) ∧
    get_model_params "densenet169" [] =
      .ok ([6, 12, 36, 32],
           ⟨.pint 32, .pint 64, .pint 4, .pint 0, .pbool false, .pint 1000, .pint 224⟩) ∧
    get_model_params "densenet201" [] =
      .ok ([6, 12, 48, 32],
           ⟨.pint 32, .pint 64, .pint 4, .pint 0, .pbool false, .pint 1000, .pint 224⟩) := by
  decide

/-- C2: every model name other than the four supported ones makes
`get_model_params` fail, whatever the overrides — with a `KeyError` when the
name merely starts with `densenet`, with the `NotImplementedError` otherwise. -/
theorem get_model_params_invalid_name (name : String) (ovr : List (String × PyVal))
    (h : name ∉ validNames) :
    ∃ e, get_model_params name ovr = .error e := by
  simp only [validNames, List.mem_cons, List.not_mem_nil, or_false, not_or] at h
  obtain ⟨h1, h2, h3, h4⟩ := h
  by_cases hs : pyStartsWith name "densenet"
  · exact ⟨.keyError, by simp [get_model_params, hs, densenet_params, h1, h2, h3, h4]⟩
  · exact ⟨.notImplementedError, by simp [get_model_params, hs]⟩

/-- C2 witness: both a `densenet`-prefixed unknown name and an unrelated
name fail. -/
theorem get_model_params_invalid_name_witness :
    ("resnet50" ∉ validNames ∧ ∃ e, get_model_params "resnet50" [] = .error e) ∧
    ("densenet999" ∉ validNames ∧ ∃ e, get_model_params "densenet999" [] = .error e) :=
  ⟨⟨by decide, get_model_params_invalid_name "resnet50" [] (by decide)⟩,
   ⟨by decide, get_model_params_invalid_name "densenet999" [] (by decide)⟩⟩

/-- C3: for every valid model name, overriding `drop_rate` to 0.5 yields the
same blocks and the same configuration record as the call without overrides,
except that `drop_rate` becomes 0.5 — the other six fields are unchanged. -/
theorem get_model_params_drop_rate_override :
    (get_model_params "densenet121" [("drop_rate", .prat (1/2))] =
      (get_model_params "densenet121" []).map
        (fun p => (p.1, { p.2 with drop_rate := .prat (1/2) }))) ∧
    (get_model_params "densenet161" [("drop_rate", .prat (1/2))] =
      (get_model_params "densenet161" []).map
        (fun p => (p.1, { p.2 with drop_rate := .prat (1/2) }))) ∧
    (get_model_params "densenet169" [("drop_rate", .prat (1/2))] =
      (get_model_params "densenet169" []).map
        (fun p => (p.1, { p.2 with drop_rate := .prat (1/2) }))) ∧
    (get_model_params "densenet201" [("drop_rate", .prat (1/2))] =
      (get_model_params "densenet201" []).map
        (fun p => (p.1, { p.2 with drop_rate := .prat (1/2) }))) := by
  refine ⟨rfl, rfl, rfl, rfl⟩

/-- C4: for every valid model name, an override mapping containing any key
that is not one of the seven declared `GlobalParams` fields makes
`get_model_params` fail with the `ValueError` from `_replace`. -/
theorem get_model_params_unknown_key (name : String) (hname : name ∈ validNames)
    (ovr : List (String × PyVal)) (k : String) (v : PyVal)
    (hkv : (k, v) ∈ ovr) (hk : k ∉ gpFields) :
    get_model_params name ovr = .error .valueError := by
  have hovr : ovr.isEmpty = false := by
    cases ovr with
    | nil => simp at hkv
    | cons a l => rfl
  have happ : ∀ gp, applyOverrides gp ovr = none :=
    fun gp => applyOverrides_eq_none hk ovr gp hkv
  simp only [validNames, List.mem_cons, List.not_mem_nil, or_false] at hname
  rcases hname with rfl | rfl | rfl | rfl <;>
    simp +decide [get_model_params, densenet_params, densenet, hovr, happ]

/-- `mapExcept` of a function that never raises is a plain `map`. -/
theorem mapExcept_ok_map {ε α β : Type} (f : α → Except ε β) (g : α → β) :
    ∀ l : List α, (∀ a ∈ l, f a = .ok (g a)) → mapExcept f l = .ok (l.map g) := by
  intro l
  induction l with
  | nil => intro _; rfl
  | cons a as ih =>
    intro h
    have ha := h a (List.mem_cons_self a as)
    have has := ih (fun x hx => h x (List.mem_cons_of_mem a hx))
    simp [mapExcept, ha, has]

/-- For a non-empty row, `topk(1)` succeeds and returns exactly the first
index the sort lists. -/
theorem topkIdx_one {row : List ℚ} (h : row ≠ []) : topkIdx 1 row = .ok [top1 row] := by
  have hpos : 1 ≤ row.length := List.length_pos.mpr h
  have hs : sortedIdx row ≠ [] := by
    have : (sortedIdx row).length = row.length := by
      simp [sortedIdx, List.length_insertionSort, List.length_range]
    intro he
    rw [he] at this
    simp at this
    omega
  unfold topkIdx
  rw [if_pos hpos]
  cases hsi : sortedIdx row with
  | nil => exact absurd hsi hs
  | cons a t => simp [top1, hsi]

/-- Column 0 of a matrix of singleton rows is the list of their entries. -/
theorem tCol_zero_singleton (g : List ℚ → ℕ) :
    ∀ l : List (List ℚ), tCol (l.map fun r => [g r]) 0 = l.map g := by
  intro l
  induction l with
  | nil => rfl
  | cons a as ih => simp [tCol, List.filterMap_cons] at ih ⊢; exact ih

/-- When every pair of a list agrees, the 0/1 indicator sum is the length. -/
theorem sum_ind_eq_length (l : List (ℕ × ℕ)) (h : ∀ p ∈ l, p.1 = p.2) :
    (l.map fun pt => if pt.1 = pt.2 then (1 : ℚ) else 0).sum = l.length := by
  induction l with
  | nil => rfl
  | cons a as ih =>
    have ha : a.1 = a.2 := h a (List.mem_cons_self a as)
    have has := ih (fun x hx => h x (List.mem_cons_of_mem a hx))
    simp only [List.map_cons, List.sum_cons, ha, eq_self_iff_true, if_true, has,
      List.length_cons]
    push_cast
    ring

/-- When no pair of a list agrees, the 0/1 indicator sum is 0. -/
theorem sum_ind_eq_zero (l : List (ℕ × ℕ)) (h : ∀ p ∈ l, p.1 ≠ p.2) :
    (l.map fun pt => if pt.1 = pt.2 then (1 : ℚ) else 0).sum = 0 := by
  induction l with
  | nil => rfl
  | cons a as ih =>
    have ha : a.1 ≠ a.2 := h a (List.mem_cons_self a as)
    have has := ih (fun x hx => h x (List.mem_cons_of_mem a hx))
    simp only [List.map_cons, List.sum_cons, if_neg ha, has, zero_add]

/-- Evaluation of `accuracy` at `topk = (1,)` on a non-empty batch of
non-empty rows: the top-1 match count times `100 / batch_size`. -/
theorem accuracy_one_eval (output : List (List ℚ)) (target : List ℕ)
    (hrows : ∀ row ∈ output, row ≠ []) (hne : target ≠ []) :
    accuracy output target [1] =
      .ok [(((output.map top1).zip target).map
              (fun pt => if pt.1 = pt.2 then (1 : ℚ) else 0)).sum *
            (100 / (target.length : ℚ))] := by
  have h1 : mapExcept (fun row => topkIdx 1 row) output =
      .ok (output.map (fun r => [top1 r])) :=
    mapExcept_ok_map _ _ output (fun a ha => topkIdx_one (hrows a ha))
  have hb : target.length ≠ 0 := fun h0 => hne (List.length_eq_zero.mp h0)
  simp only [accuracy, List.isEmpty_cons, Bool.false_eq_true, if_false,
    List.foldl_cons, List.foldl_nil, Nat.zero_max, h1, tMat,
    List.range_succ, List.range_zero, List.nil_append,
    List.map_cons, List.map_nil, tCol_zero_singleton, mapExcept,
    List.take_succ_cons, List.take_nil, List.flatten_cons, List.flatten_nil,
    List.append_nil, List.map_map, if_neg hb]
  have hfun : List.map ((fun b => if b = true then (1 : ℚ) else 0) ∘ fun pt : ℕ × ℕ => pt.1 == pt.2)
      ((List.map top1 output).zip target) =
      List.map (fun pt : ℕ × ℕ => if pt.1 = pt.2 then (1 : ℚ) else 0)
        ((List.map top1 output).zip target) := by
    congr 1
    funext pt
    by_cases hpt : pt.1 = pt.2 <;> simp [hpt]
  rw [hfun]

/-- Folding updates accumulates `count` additively. -/
theorem AverageMeter.updates_count (us : List (ℚ × ℤ)) :
    ∀ m : AverageMeter, (m.updates us).count = m.count + (us.map (fun u => u.2)).sum := by
  induction us with
  | nil => intro m; simp [AverageMeter.updates]
  | cons u rest ih =>
    intro m
    simp only [AverageMeter.updates, List.foldl_cons, List.map_cons, List.sum_cons]
    rw [show List.foldl (fun acc u => acc.update u.1 u.2) (m.update u.1 u.2) rest =
          (m.update u.1 u.2).updates rest from rfl, ih]
    simp [AverageMeter.update]
    ring

/-- Folding updates accumulates the weighted `sum` additively. -/
theorem AverageMeter.updates_sum (us : List (ℚ × ℤ)) :
    ∀ m : AverageMeter, (m.updates us).sum = m.sum + (us.map (fun u => u.1 * (u.2 : ℚ))).sum := by
  induction us with
  | nil => intro m; simp [AverageMeter.updates]
  | cons u rest ih =>
    intro m
    simp only [AverageMeter.updates, List.foldl_cons, List.map_cons, List.sum_cons]
    rw [show List.foldl (fun acc u => acc.update u.1 u.2) (m.update u.1 u.2) rest =
          (m.update u.1 u.2).updates rest from rfl, ih]
    simp [AverageMeter.update]
    ring

/-- Folding updates leaves `val` at the most recent value. -/
theorem AverageMeter.updates_val (us : List (ℚ × ℤ)) :
    ∀ m : AverageMeter, (m.updates us).val = (us.map (fun u => u.1)).getLastD m.val := by
  induction us with
  | nil => intro m; simp [AverageMeter.updates]
  | cons u rest ih =>
    intro m
    simp only [AverageMeter.updates, List.foldl_cons, List.map_cons]
    rw [show List.foldl (fun acc u => acc.update u.1 u.2) (m.update u.1 u.2) rest =
          (m.update u.1 u.2).updates rest from rfl, ih, List.getLastD_cons]
    rfl

/-- Folding updates preserves `avg = sum / count` (each `update` recomputes
it, and `0 / 0 = 0` covers the reset state). -/
theorem AverageMeter.updates_avg (us : List (ℚ × ℤ)) :
    ∀ m : AverageMeter, m.avg = m.sum / m.count →
      (m.updates us).avg = (m.updates us).sum / (m.updates us).count := by
  induction us with
  | nil => intro m h; simpa [AverageMeter.updates] using h
  | cons u rest ih =>
    intro m _
    simp only [AverageMeter.updates, List.foldl_cons]
    exact ih (m.update u.1 u.2) rfl

/-- Dropping a literal run from a list that starts with it succeeds. -/
theorem dropPre_append (p cs : List Char) : dropPre p (p ++ cs) = some cs := by
  induction p with
  | nil => rfl
  | cons a ps ih => simp [dropPre, ih]

/-- When the text starts with one alternative and every other alternative
differs from it already at its first character, `takeAny` selects exactly
that alternative. -/
theorem takeAny_of_append (p rest : List Char) :
    ∀ cands : List (List Char), p ∈ cands → (∀ q ∈ cands, q ≠ []) →
      (∀ q ∈ cands, q ≠ p → q.head? ≠ p.head?) →
      takeAny cands (p ++ rest) = some (p, rest) := by
  intro cands
  induction cands with
  | nil => intro hmem _ _; simp at hmem
  | cons q qs ih =>
    intro hmem hne hheads
    by_cases hq : q = p
    · subst hq
      simp [takeAny, dropPre_append]
    · have hqne : q ≠ [] := hne q (List.mem_cons_self q qs)
      have hpne : p ≠ [] := hne p hmem
      have hhead : q.head? ≠ p.head? := hheads q (List.mem_cons_self q qs) hq
      have hpm : p ∈ qs := by
        rcases List.mem_cons.mp hmem with h | h
        · exact absurd h.symm hq
        · exact h
      cases q with
      | nil => exact absurd rfl hqne
      | cons q0 qt =>
        cases p with
        | nil => exact absurd rfl hpne
        | cons p0 pt =>
          have hq0p0 : ¬(p0 = q0) := by
            intro he
            exact hhead (by simp [he])
          have hdrop : dropPre (q0 :: qt) ((p0 :: pt) ++ rest) = none := by
            simp [dropPre, List.cons_append, hq0p0]
          simp only [takeAny, hdrop]
          exact ih hpm (fun r hr => hne r (List.mem_cons_of_mem _ hr))
            (fun r hr h2 => hheads r (List.mem_cons_of_mem _ hr) h2)

/-- `takeWhile`/`dropWhile` with `isDig` split a digit run followed by a
non-digit exactly at the boundary. -/
theorem takeWhile_digits (rest : List Char) (c0 : Char) (hc0 : isDig c0 = false) :
    ∀ ds : List Char, (∀ c ∈ ds, isDig c = true) →
      (ds ++ c0 :: rest).takeWhile isDig = ds ∧
      (ds ++ c0 :: rest).dropWhile isDig = c0 :: rest := by
  intro ds
  induction ds with
  | nil =>
    intro _
    constructor
    · simp [List.takeWhile_cons, hc0]
    · simp [List.dropWhile_cons, hc0]
  | cons a ds ih =>
    intro h
    have ha : isDig a = true := h a (List.mem_cons_self a ds)
    obtain ⟨ht, hd⟩ := ih (fun c hc => h c (List.mem_cons_of_mem a hc))
    constructor
    · simp [List.takeWhile_cons, ha, ht]
    · simp [List.dropWhile_cons, ha, hd]

/-- Evaluation of the pattern matcher on a reversed key of exactly the
pattern's shape: it matches, and returns the reversed rewritten key. -/
theorem rewriteRev_eval (A ds mid d suf : List Char)
    (hds : ds ≠ []) (hdig : ∀ c ∈ ds, isDig c = true)
    (hsufrev : suf.reverse ∈ sufCands)
    (hsufheads : ∀ q ∈ sufCands, q ≠ suf.reverse → q.head? ≠ suf.reverse.head?)
    (hdrev : d.reverse ∈ digCands)
    (hdheads : ∀ q ∈ digCands, q ≠ d.reverse → q.head? ≠ d.reverse.head?)
    (hmidrev : mid.reverse ∈ midCands)
    (hmidheads : ∀ q ∈ midCands, q ≠ mid.reverse → q.head? ≠ mid.reverse.head?) :
    rewriteRev ((A ++ "denselayer".data ++ ds ++ '.' :: mid ++ '.' :: d ++ '.' :: suf).reverse) =
      some (suf.reverse ++ '.' ::
        (d.reverse ++ (mid.reverse ++ '.' :: (ds.reverse ++ (layerRev ++ A.reverse))))) := by
  have hcne1 : ∀ q ∈ sufCands, q ≠ [] := by decide
  have hcne2 : ∀ q ∈ digCands, q ≠ [] := by decide
  have hcne3 : ∀ q ∈ midCands, q ≠ [] := by decide
  have hrev : (A ++ "denselayer".data ++ ds ++ '.' :: mid ++ '.' :: d ++ '.' :: suf).reverse =
      suf.reverse ++ '.' :: (d.reverse ++ ('.' :: (mid.reverse ++
        ('.' :: (ds.reverse ++ (layerRev ++ A.reverse)))))) := by
    simp [layerRev, List.reverse_append]
  have h1 : takeAny sufCands (suf.reverse ++ '.' :: (d.reverse ++ ('.' :: (mid.reverse ++
      ('.' :: (ds.reverse ++ (layerRev ++ A.reverse))))))) =
      some (suf.reverse, '.' :: (d.reverse ++ ('.' :: (mid.reverse ++
        ('.' :: (ds.reverse ++ (layerRev ++ A.reverse))))))) :=
    takeAny_of_append _ _ sufCands hsufrev hcne1 hsufheads
  have h3 : takeAny digCands (d.reverse ++ ('.' :: (mid.reverse ++
      ('.' :: (ds.reverse ++ (layerRev ++ A.reverse)))))) =
      some (d.reverse, '.' :: (mid.reverse ++ ('.' :: (ds.reverse ++ (layerRev ++ A.reverse))))) :=
    takeAny_of_append _ _ digCands hdrev hcne2 hdheads
  have h5 : takeAny midCands (mid.reverse ++ ('.' :: (ds.reverse ++ (layerRev ++ A.reverse)))) =
      some (mid.reverse, '.' :: (ds.reverse ++ (layerRev ++ A.reverse))) :=
    takeAny_of_append _ _ midCands hmidrev hcne3 hmidheads
  have hstem : checkStem ('.' :: (ds.reverse ++ (layerRev ++ A.reverse))) = true := by
    have hlay : layerRev = ['r', 'e', 'y', 'a', 'l', 'e', 's', 'n', 'e', 'd'] := by decide
    have hdig' : ∀ c ∈ ds.reverse, isDig c = true := fun c hc => hdig c (List.mem_reverse.mp hc)
    have hr' : isDig 'r' = false := by decide
    obtain ⟨ht, hd⟩ :=
      takeWhile_digits (['e', 'y', 'a', 'l', 'e', 's', 'n', 'e', 'd'] ++ A.reverse) 'r' hr'
        ds.reverse hdig'
    have hR3 : ds.reverse ++ (layerRev ++ A.reverse) =
        ds.reverse ++ ('r' :: (['e', 'y', 'a', 'l', 'e', 's', 'n', 'e', 'd'] ++ A.reverse)) := by
      rw [hlay]
      rfl
    have hds' : ds.reverse ≠ [] := by
      intro he
      exact hds (by simpa using congrArg List.reverse he)
    have hdrop : dropPre ['.'] ('.' :: (ds.reverse ++ (layerRev ++ A.reverse))) =
        some (ds.reverse ++ (layerRev ++ A.reverse)) := by
      simp [dropPre]
    have hemp : (ds.reverse).isEmpty = false := by
      cases hx : ds.reverse with
      | nil => exact absurd hx hds'
      | cons a t => rfl
    have hfinal : dropPre layerRev
        ('r' :: (['e', 'y', 'a', 'l', 'e', 's', 'n', 'e', 'd'] ++ A.reverse)) =
        some A.reverse := by
      rw [hlay]
      exact dropPre_append _ _
    rw [hR3]
    have hdrop2 : dropPre ['.']
        ('.' :: (ds.reverse ++ 'r' :: (['e', 'y', 'a', 'l', 'e', 's', 'n', 'e', 'd'] ++ A.reverse))) =
        some (ds.reverse ++ 'r' :: (['e', 'y', 'a', 'l', 'e', 's', 'n', 'e', 'd'] ++ A.reverse)) := by
      simp [dropPre]
    simp only [checkStem, hdrop2, ht, hd, hemp, hfinal, Option.isSome_some,
      Bool.not_false, Bool.and_self]
  have h2 : dropPre ['.'] ('.' :: (d.reverse ++ ('.' :: (mid.reverse ++
      ('.' :: (ds.reverse ++ (layerRev ++ A.reverse))))))) =
      some (d.reverse ++ ('.' :: (mid.reverse ++
        ('.' :: (ds.reverse ++ (layerRev ++ A.reverse)))))) := by
    simp [dropPre]
  have h4 : dropPre ['.'] ('.' :: (mid.reverse ++
      ('.' :: (ds.reverse ++ (layerRev ++ A.reverse))))) =
      some (mid.reverse ++ ('.' :: (ds.reverse ++ (layerRev ++ A.reverse)))) := by
    simp [dropPre]
  rw [hrev]
  simp only [rewriteRev, h1, h2, h3, h4, h5, hstem, if_true]

/-- On a key of exactly the pattern's shape the rewrite removes the dot
between the layer part and the digit and changes nothing else. -/
theorem rewriteKeyChars_matched (A ds mid d suf : List Char)
    (hds : ds ≠ []) (hdig : ∀ c ∈ ds, isDig c = true)
    (hmid : mid ∈ ["norm".data, "relu".data, "conv".data])
    (hd : d ∈ [['1'], ['2']])
    (hsuf : suf ∈ ["weight".data, "bias".data, "running_mean".data, "running_var".data]) :
    rewriteKeyChars (A ++ "denselayer".data ++ ds ++ '.' :: mid ++ '.' :: d ++ '.' :: suf) =
      A ++ "denselayer".data ++ ds ++ '.' :: mid ++ d ++ '.' :: suf := by
  have hsufrev : suf.reverse ∈ sufCands := by
    fin_cases hsuf <;> decide
  have hsufheads : ∀ q ∈ sufCands, q ≠ suf.reverse → q.head? ≠ suf.reverse.head? := by
    fin_cases hsuf <;> decide
  have hdrev : d.reverse ∈ digCands := by
    fin_cases hd <;> decide
  have hdheads : ∀ q ∈ digCands, q ≠ d.reverse → q.head? ≠ d.reverse.head? := by
    fin_cases hd <;> decide
  have hmidrev : mid.reverse ∈ midCands := by
    fin_cases hmid <;> decide
  have hmidheads : ∀ q ∈ midCands, q ≠ mid.reverse → q.head? ≠ mid.reverse.head? := by
    fin_cases hmid <;> decide
  unfold rewriteKeyChars
  rw [rewriteRev_eval A ds mid d suf hds hdig hsufrev hsufheads hdrev hdheads hmidrev
    hmidheads]
  simp [layerRev, List.reverse_append, List.append_assoc]

/-- The first index `torch.topk` lists for a row is a maximizer of the row:
the `top1` prediction really is a highest-scoring class. -/
theorem top1_maximal (row : List ℚ) (h : row ≠ []) :
    top1 row < row.length ∧ ∀ j < row.length, row.getD j 0 ≤ row.getD (top1 row) 0 := by
  have hlen : (sortedIdx row).length = row.length := by
    simp [sortedIdx, List.length_insertionSort, List.length_range]
  have hpos : 0 < row.length := List.length_pos.mpr h
  cases hsi : sortedIdx row with
  | nil => rw [hsi] at hlen; simp at hlen; omega
  | cons a t =>
    have htop : top1 row = a := by simp [top1, hsi]
    have hperm : List.Perm (sortedIdx row) (List.range row.length) :=
      List.perm_insertionSort (topkRel row) (List.range row.length)
    have hsorted : List.Sorted (topkRel row) (a :: t) := by
      rw [← hsi]
      exact List.sorted_insertionSort (topkRel row) (List.range row.length)
    have hrel : ∀ b ∈ t, topkRel row a b := (List.sorted_cons.mp hsorted).1
    have hamem : a < row.length := by
      have ha : a ∈ sortedIdx row := by rw [hsi]; exact List.mem_cons_self a t
      exact List.mem_range.mp (hperm.subset ha)
    refine ⟨htop ▸ hamem, ?_⟩
    intro j hj
    have hjmem : j ∈ a :: t := by
      rw [← hsi]
      exact (hperm.mem_iff).mpr (List.mem_range.mpr hj)
    rw [htop]
    rcases List.mem_cons.mp hjmem with rfl | hjt
    · exact le_refl _
    · rcases hrel j hjt with hlt | ⟨heq, _⟩
      · exact le_of_lt hlt
      · exact le_of_eq heq.symm

/-- C6: on a non-empty batch (scores rows non-empty, one label per row),
top-1 accuracy is 100.0 when every example's top-1 predicted class (`top1`,
a highest-scoring class by `top1_maximal`) equals its label, and 0.0 when no
example's top-1 predicted class equals its label. -/
theorem accuracy_top1_extremes (output : List (List ℚ)) (target : List ℕ)
    (hlen : output.length = target.length) (hne : target ≠ [])
    (hrows : ∀ row ∈ output, row ≠ []) :
    ((∀ p ∈ (output.map top1).zip target, p.1 = p.2) →
       accuracy output target [1] = .ok [100]) ∧
    ((∀ p ∈ (output.map top1).zip target, p.1 ≠ p.2) →
       accuracy output target [1] = .ok [0]) := by
  have heval := accuracy_one_eval output target hrows hne
  have hzlen : ((output.map top1).zip target).length = target.length := by
    rw [List.length_zip, List.length_map, hlen, min_self]
  have hb : (target.length : ℚ) ≠ 0 :=
    Nat.cast_ne_zero.mpr (fun h0 => hne (List.length_eq_zero.mp h0))
  constructor
  · intro hall
    rw [heval, sum_ind_eq_length _ hall, hzlen]
    have hc : (target.length : ℚ) * (100 / (target.length : ℚ)) = 100 := by
      field_simp
    rw [hc]
  · intro hnone
    rw [heval, sum_ind_eq_zero _ hnone, zero_mul]

/-- C6 witness: a 2-example batch where both top-1 predictions match the
labels scores 100.0, and the same batch with the labels swapped scores 0.0. -/
theorem accuracy_top1_extremes_witness :
    (([[(0 : ℚ), 1], [2, 1]] : List (List ℚ)).length = ([1, 0] : List ℕ).length ∧
     ([1, 0] : List ℕ) ≠ [] ∧
     (∀ row ∈ ([[(0 : ℚ), 1], [2, 1]] : List (List ℚ)), row ≠ []) ∧
     (∀ p ∈ (([[(0 : ℚ), 1], [2, 1]] : List (List ℚ)).map top1).zip ([1, 0] : List ℕ),
        p.1 = p.2) ∧
     accuracy [[(0 : ℚ), 1], [2, 1]] [1, 0] [1] = .ok [100]) ∧
    ((∀ p ∈ (([[(0 : ℚ), 1], [2, 1]] : List (List ℚ)).map top1).zip ([0, 1] : List ℕ),
        p.1 ≠ p.2) ∧
     accuracy [[(0 : ℚ), 1], [2, 1]] [0, 1] [1] = .ok [0]) :=
  ⟨⟨by decide, by decide, by decide, by decide,
    (accuracy_top1_extremes [[(0 : ℚ), 1], [2, 1]] [1, 0] (by decide) (by decide)
      (by decide)).1 (by decide)⟩,
   ⟨by decide,
    (accuracy_top1_extremes [[(0 : ℚ), 1], [2, 1]] [0, 1] (by decide) (by decide)
      (by decide)).2 (by decide)⟩⟩

/-- C7: on a zero batch (no target labels, hence no score rows), `accuracy`
raises the unguarded ZeroDivisionError of `100.0 / batch_size`, for every
non-empty `topk` tuple — the failure reaches the caller. -/
theorem accuracy_zero_batch (k : ℕ) (ks : List ℕ) :
    accuracy [] [] (k :: ks) = .error .zeroDiv := by
  simp [accuracy, mapExcept]

/-- C5: `adjust_learning_rate` writes `args.lr * 0.1 ^ (epoch / 30)` to the
`lr` entry of every parameter group, leaving the rest of each group alone;
with base rate 0.1 this gives 0.1 at epoch 0, 0.01 at epoch 30 and 0.001 at
epoch 60. -/
theorem adjust_learning_rate_schedule :
    (∀ (α : Type) (groups : List (ℚ × α)) (epoch : ℕ) (args : Args),
      adjust_learning_rate groups epoch args =
        groups.map (fun g => (args.lr * (1/10 : ℚ) ^ (epoch / 30), g.2))) ∧
    adjust_learning_rate [((1 : ℚ), ())] 0 ⟨1/10⟩ = [((1/10 : ℚ), ())] ∧
    adjust_learning_rate [((1 : ℚ), ())] 30 ⟨1/10⟩ = [((1/100 : ℚ), ())] ∧
    adjust_learning_rate [((1 : ℚ), ())] 60 ⟨1/10⟩ = [((1/1000 : ℚ), ())] := by
  refine ⟨fun α groups epoch args => rfl, ?_, ?_, ?_⟩ <;>
    norm_num [adjust_learning_rate]

/-- C8: from the reset state, `update(4, 2)` then `update(6, 2)` leaves an
average of (4*2+6*2)/4 = 5, and a subsequent `reset` returns every field
(val, avg, sum, count) to 0. -/
theorem averageMeter_example :
    ((AverageMeter.init.update 4 2).update 6 2).avg = 5 ∧
    ((AverageMeter.init.update 4 2).update 6 2).reset =
      { val := 0, avg := 0, sum := 0, count := 0 } := by
  constructor
  · norm_num [AverageMeter.init, AverageMeter.reset, AverageMeter.update]
  · rfl

/-- C10: construction (`__init__` calls `reset`) gives the all-zero state,
and after any sequence of `update(v_i, n_i)` calls with positive integer
weights, `count` is the sum of the `n_i`, `sum` is the sum of the `v_i * n_i`,
`avg` is `sum / count`, and `val` is the most recent `v_i` (0 if none). -/
theorem averageMeter_invariant (us : List (ℚ × ℤ)) (hpos : ∀ u ∈ us, 1 ≤ u.2) :
    AverageMeter.init = { val := 0, avg := 0, sum := 0, count := 0 } ∧
    (AverageMeter.init.updates us).count = (us.map (fun u => u.2)).sum ∧
    (AverageMeter.init.updates us).sum = (us.map (fun u => u.1 * (u.2 : ℚ))).sum ∧
    (AverageMeter.init.updates us).avg =
      (AverageMeter.init.updates us).sum / (AverageMeter.init.updates us).count ∧
    (AverageMeter.init.updates us).val = (us.map (fun u => u.1)).getLastD 0 := by
  refine ⟨rfl, ?_, ?_, ?_, ?_⟩
  · rw [AverageMeter.updates_count]; simp [AverageMeter.init, AverageMeter.reset]
  · rw [AverageMeter.updates_sum]; simp [AverageMeter.init, AverageMeter.reset]
  · exact AverageMeter.updates_avg us AverageMeter.init
      (by norm_num [AverageMeter.init, AverageMeter.reset])
  · rw [AverageMeter.updates_val]
    rfl

/-- C10 witness: the invariant evaluated on the concrete update sequence
`[(4, 2), (6, 2)]`. -/
theorem averageMeter_invariant_witness :
    (∀ u ∈ [((4 : ℚ), (2 : ℤ)), ((6 : ℚ), (2 : ℤ))], 1 ≤ u.2) ∧
    (AverageMeter.init = { val := 0, avg := 0, sum := 0, count := 0 } ∧
     (AverageMeter.init.updates [((4 : ℚ), (2 : ℤ)), ((6 : ℚ), (2 : ℤ))]).count =
       ([((4 : ℚ), (2 : ℤ)), ((6 : ℚ), (2 : ℤ))].map (fun u => u.2)).sum ∧
     (AverageMeter.init.updates [((4 : ℚ), (2 : ℤ)), ((6 : ℚ), (2 : ℤ))]).sum =
       ([((4 : ℚ), (2 : ℤ)), ((6 : ℚ), (2 : ℤ))].map (fun u => u.1 * (u.2 : ℚ))).sum ∧
     (AverageMeter.init.updates [((4 : ℚ), (2 : ℤ)), ((6 : ℚ), (2 : ℤ))]).avg =
       (AverageMeter.init.updates [((4 : ℚ), (2 : ℤ)), ((6 : ℚ), (2 : ℤ))]).sum /
         (AverageMeter.init.updates [((4 : ℚ), (2 : ℤ)), ((6 : ℚ), (2 : ℤ))]).count ∧
     (AverageMeter.init.updates [((4 : ℚ), (2 : ℤ)), ((6 : ℚ), (2 : ℤ))]).val =
       ([((4 : ℚ), (2 : ℤ)), ((6 : ℚ), (2 : ℤ))].map (fun u => u.1)).getLastD 0) := by
  have hw : ∀ u ∈ [((4 : ℚ), (2 : ℤ)), ((6 : ℚ), (2 : ℤ))], 1 ≤ u.2 := by
    intro u hu
    rcases List.mem_cons.mp hu with rfl | hu
    · norm_num
    · rcases List.mem_cons.mp hu with rfl | hu
      · norm_num
      · simp at hu
  exact ⟨hw, averageMeter_invariant [((4 : ℚ), (2 : ℤ)), ((6 : ℚ), (2 : ℤ))] hw⟩

/-- C9: the key-rewrite of `load_pretrained_weights` maps every key of the
form `<prefix>denselayer<N>.(norm|relu|conv).<1|2>.(weight|bias|running_mean|running_var)`
to the same key with the dot before the digit removed; e.g.
`features.denseblock1.denselayer1.norm.1.weight` becomes
`features.denseblock1.denselayer1.norm1.weight`; a key the pattern does not
match is left unmodified. -/
theorem rewriteKey_spec :
    (∀ A ds mid d suf : List Char,
       ds ≠ [] → (∀ c ∈ ds, isDig c = true) →
       mid ∈ ["norm".data, "relu".data, "conv".data] →
       d ∈ [['1'], ['2']] →
       suf ∈ ["weight".data, "bias".data, "running_mean".data, "running_var".data] →
       rewriteKeyChars (A ++ "denselayer".data ++ ds ++ '.' :: mid ++ '.' :: d ++ '.' :: suf) =
         A ++ "denselayer".data ++ ds ++ '.' :: mid ++ d ++ '.' :: suf) ∧
    (∀ key : String, rewriteRev key.data.reverse = none → rewriteKey key = key) ∧
    rewriteKey "features.denseblock1.denselayer1.norm.1.weight" =
      "features.denseblock1.denselayer1.norm1.weight" := by
  refine ⟨rewriteKeyChars_matched, ?_, ?_⟩
  · intro key h
    simp [rewriteKey, rewriteKeyChars, h]
  · decide

/-- C9 witness: the pattern-shaped decomposition of
`features.denseblock1.denselayer1.norm.1.weight` is rewritten with its inner
dot removed, and the non-matching key `classifier.weight` is left alone. -/
theorem rewriteKey_spec_witness :
    ((['1'] : List Char) ≠ [] ∧ (∀ c ∈ (['1'] : List Char), isDig c = true) ∧
     "norm".data ∈ ["norm".data, "relu".data, "conv".data] ∧
     (['1'] : List Char) ∈ [['1'], ['2']] ∧
     "weight".data ∈ ["weight".data, "bias".data, "running_mean".data, "running_var".data] ∧
     rewriteKeyChars ("features.denseblock1.".data ++ "denselayer".data ++ ['1'] ++
         '.' :: "norm".data ++ '.' :: ['1'] ++ '.' :: "weight".data) =
       "features.denseblock1.".data ++ "denselayer".data ++ ['1'] ++
         '.' :: "norm".data ++ ['1'] ++ '.' :: "weight".data) ∧
    (rewriteRev "classifier.weight".data.reverse = none ∧
     rewriteKey "classifier.weight" = "classifier.weight") :=
  ⟨⟨by decide, by decide, by decide, by decide, by decide,
    rewriteKey_spec.1 "features.denseblock1.".data ['1'] "norm".data ['1'] "weight".data
      (by decide) (by decide) (by decide) (by decide) (by decide)⟩,
   ⟨by decide, rewriteKey_spec.2.1 "classifier.weight" (by decide)⟩⟩

/-- C4 witness: `densenet121` with override `{foo: 1}` fails. -/
theorem get_model_params_unknown_key_witness :
    "densenet121" ∈ validNames ∧ ("foo", PyVal.pint 1) ∈ [("foo", PyVal.pint 1)] ∧
    "foo" ∉ gpFields ∧
    get_model_params "densenet121" [("foo", .pint 1)] = .error .valueError :=
  ⟨by decide, by decide, by decide,
   get_model_params_unknown_key "densenet121" (by decide) [("foo", .pint 1)] "foo"
     (.pint 1) (by decide) (by decide)⟩

end DN
